import Mathlib

/-!
Verification of the pyloid-js SDK core against its specification.

The development shallowly embeds the SDK's core modules:

* `src/core/pyloidReadyManager.ts` — the readiness gate (`PyloidReadyManager`)
  as an explicit state machine over `MgrState`, with the JS promise settled
  once-only semantics made explicit in `PromiseState`.
* `src/core/event.ts` / `src/core/ipc.ts` — the shared `ensureReady` gating
  pattern used by `BaseAPI` and `IPC`, and the dynamic dot-path dispatcher
  `IPC.callIPC` over a model `JsVal` of JavaScript values.
* `src/core/rpc.ts` — the `RpcClient` lazy endpoint/session initialization
  and the JSON-RPC envelope and response handling.
* the fetch module — the single-flight lazy cache pattern
  (`ensureServerUrlInitialized` and friends), `buildUrl`, and the header
  merge performed by the enhanced `fetch`.

JavaScript strings are modelled by Lean `String`; JS truthiness of strings
and values is made explicit (`truthyStr`, `truthy`).  Asynchronous code is
modelled by explicit interleaving state machines: each atomic synchronous
segment of a JS function (between `await` points) is one step, faithful to
the single-threaded run-to-completion semantics of the event loop.
-/

namespace Pyloid

/-- JS truthiness of a nullable string (`null`/`undefined` and `""` are falsy). -/
def truthyStr : Option String → Bool
  | none => false
  | some s => !(s == "")

/-! ### PyloidReadyManager (src/core/pyloidReadyManager.ts)

The manager holds a `ready` flag, the one-shot `readyPromise`, and the two
timer handles.  A JS promise settles at most once: resolving or rejecting an
already settled promise is a no-op, captured by `resolveP` / `rejectP`. -/

/-- Settlement state of a JS promise: once settled it never changes. -/
inductive PromiseState
  | pending
  | resolved
  | rejected (msg : String)
deriving DecidableEq, Repr

/-- Resolving a JS promise (`resolve()`): only a pending promise becomes resolved. -/
def resolveP : PromiseState → PromiseState
  | .pending => .resolved
  | s => s

/-- Rejecting a JS promise (`reject(msg)`): only a pending promise becomes rejected. -/
def rejectP (m : String) : PromiseState → PromiseState
  | .pending => .rejected m
  | s => s

/-- State of a `PyloidReadyManager`: the `ready` flag, the `readyPromise`,
and whether the polling interval and the timeout timer are still armed. -/
structure MgrState where
  ready : Bool
  promise : PromiseState
  pollingActive : Bool
  timeoutActive : Bool
deriving DecidableEq, Repr

/-- Constructor state on the polling branch: `__PYLOID__` absent, a browser
`window` present, so the interval and the timeout are armed. -/
def initMgr : MgrState :=
  { ready := false, promise := .pending, pollingActive := true, timeoutActive := true }

/-- The `stopPolling()` method: clears the interval and the timeout ids. -/
def stopPolling (st : MgrState) : MgrState :=
  { st with pollingActive := false, timeoutActive := false }

/-- The `setReady()` method: guarded by `if (!this.ready)`; sets the flag, stops the
timers and resolves the ready promise. -/
def setReady (st : MgrState) : MgrState :=
  if st.ready then st
  else
    let st1 := { st with ready := true }
    let st2 := stopPolling st1
    { st2 with promise := resolveP st2.promise }

/-- The rejection reason used by the polling timeout handler. -/
def timeoutMsg : String := "Pyloid initialization timed out."

/-- Events the manager can experience: an interval tick (with or without the
bridge present), the timeout timer firing, and a direct `setReady()` call. -/
inductive MgrEvent
  | pollTick (bridgePresent : Bool)
  | timeoutFire
  | setReadyCall
deriving DecidableEq, Repr

/-- One manager transition.  The interval callback runs only while the
interval is armed and acts only when `window.__PYLOID__` is present; the
timeout callback runs only while the timeout is armed and is additionally
guarded by `if (!this.ready)`. -/
def mgrStep (st : MgrState) : MgrEvent → MgrState
  | .pollTick b =>
      if st.pollingActive && b then setReady (stopPolling st)
      else st
  | .timeoutFire =>
      if st.timeoutActive && !st.ready then
        { stopPolling st with promise := rejectP timeoutMsg st.promise }
      else st
  | .setReadyCall => setReady st

/-- Run the manager over a sequence of events. -/
def runMgr (st : MgrState) (es : List MgrEvent) : MgrState :=
  es.foldl mgrStep st

/-- Manager state after the first `k` events of `es`, starting from `initMgr`. -/
def mgrAt (es : List MgrEvent) (k : Nat) : MgrState :=
  runMgr initMgr (es.take k)

/-- The `ensureReady` pattern shared verbatim by `BaseAPI.ensureReady` and
`IPC.ensureReady`: a call issued at instant `i` invokes the bridge function
immediately if `isReady()` is already true, and otherwise awaits
`whenReady()`, resuming (and only then invoking the bridge) at the first
instant at which the ready promise is resolved; if the promise never
resolves the bridge is never invoked (`none`). -/
def ensureReadyInvokeTime (es : List MgrEvent) (i : Nat) : Option Nat :=
  if (mgrAt es i).ready then some i
  else
    (List.range (es.length + 1)).find? fun j =>
      decide (i ≤ j) && decide ((mgrAt es j).promise = PromiseState.resolved)

/-! ### Single-flight lazy cache (fetch module `ensureServerUrlInitialized`,
`ensureWindowIdInitialized`; same guard structure as
`RpcClient.ensureEndpointInitialized` in src/core/rpc.ts)

The module state is `value` (`serverUrl` / `windowId`), the stored promise
(`serverUrlPromise` / `windowIdPromise`, here `inflight` + `prom`), plus a
ghost counter `hostCalls` counting invocations of the underlying resolver
(`initializeServerUrl` / `initializeWindowId`).  Each caller of the ensure
function is a coroutine advanced one atomic synchronous segment at a time. -/

/-- Shared cache state.  `inflight = true` iff the module-level promise
variable is non-null; `prom` is that promise's settlement state; `hostCalls`
counts how many times the underlying host resolver was started. -/
structure CacheState where
  value : Option String
  inflight : Bool
  prom : PromiseState
  hostCalls : Nat
deriving DecidableEq, Repr

/-- Fresh module state: nothing cached, no promise stored. -/
def initCache : CacheState :=
  { value := none, inflight := false, prom := .pending, hostCalls := 0 }

/-- The error thrown by the final `if (!serverUrl) throw` re-check. -/
def noInitMsg : String := "Server URL could not be initialized."

/-- The wrapping applied by the resolver's catch block:
`Failed to get server URL: <error>`. -/
def wrapFail (e : String) : String := "Failed to get server URL: " ++ e

/-- Where a caller of the ensure function currently is: about to run the
initial synchronous segment, suspended on the stored promise, or finished
(having observed a value or an error). -/
inductive CallerPhase
  | start
  | waiting
  | doneOk (v : String)
  | doneErr (e : String)
deriving DecidableEq, Repr

/-- One atomic step of a caller.  From `start` it runs the synchronous
segment `if (!value) { if (!promise) promise = initialize(); await promise }`:
if the cached value is truthy it finishes immediately; otherwise it stores a
fresh promise (starting the host resolver — counted) unless one is already
stored, and suspends.  From `waiting` it resumes once the promise settles:
a rejection is rethrown; on resolution the `if (!value) throw` re-check runs
and the caller observes the cached value. -/
def callerStep (c : CacheState) : CallerPhase → CacheState × CallerPhase
  | .start =>
      if truthyStr c.value then (c, .doneOk (c.value.getD ""))
      else if c.inflight then (c, .waiting)
      else ({ c with inflight := true, hostCalls := c.hostCalls + 1 }, .waiting)
  | .waiting =>
      match c.prom with
      | .pending => (c, .waiting)
      | .resolved =>
          if truthyStr c.value then (c, .doneOk (c.value.getD ""))
          else (c, .doneErr noInitMsg)
      | .rejected m => (c, .doneErr m)
  | .doneOk v => (c, .doneOk v)
  | .doneErr e => (c, .doneErr e)

/-- The host resolver's own completion (the rest of `initializeServerUrl`
after its `await`): on success it writes the cache and resolves the stored
promise; on failure it rejects the stored promise with the wrapped message.
In both cases the stored promise variable is left in place — the source
never assigns `null` back to it. -/
def settleStep (outcome : Except String String) (c : CacheState) : CacheState :=
  if c.inflight ∧ c.prom = .pending then
    match outcome with
    | .ok url => { c with value := some url, prom := .resolved }
    | .error e => { c with prom := .rejected (wrapFail e) }
  else c

/-- Whole-system state: the shared cache plus each concurrent caller. -/
structure SysState where
  cache : CacheState
  callers : List CallerPhase
deriving DecidableEq, Repr

/-- Scheduler events: advance caller `i` by one atomic segment, or let the
in-flight host resolution complete. -/
inductive SysEvent
  | run (i : Nat)
  | settle
deriving DecidableEq, Repr

/-- One interleaving step of the whole system. -/
def sysStep (outcome : Except String String) (s : SysState) : SysEvent → SysState
  | .run i =>
      match s.callers.get? i with
      | none => s
      | some ph =>
          let p := callerStep s.cache ph
          { cache := p.1, callers := s.callers.set i p.2 }
  | .settle => { s with cache := settleStep outcome s.cache }

/-- Run the system over a schedule of interleaving events. -/
def sysRun (outcome : Except String String) (s : SysState) (es : List SysEvent) : SysState :=
  es.foldl (sysStep outcome) s

/-- Initial system: `n` concurrent callers racing an unresolved cache. -/
def initSys (n : Nat) : SysState :=
  { cache := initCache, callers := List.replicate n .start }

/-- Inductive invariant of the cache system when the host resolution
succeeds with `url`: the cache only ever holds `url`, the promise resolves
only after the cache is written, the resolver has been started at most once
(exactly once iff the promise variable is set), and every caller is either
still to run, suspended, or finished having observed `url`. -/
def OkInv (url : String) (s : SysState) : Prop :=
  (s.cache.value = none ∨ s.cache.value = some url) ∧
    (s.cache.prom = .resolved → s.cache.value = some url) ∧
    (∀ m, s.cache.prom ≠ .rejected m) ∧
    (s.cache.inflight = false →
      s.cache.hostCalls = 0 ∧ s.cache.prom = .pending ∧ s.cache.value = none) ∧
    (s.cache.inflight = true → s.cache.hostCalls = 1) ∧
    (∀ ph ∈ s.callers,
      (ph = .start ∨ ph = .waiting ∨ ph = .doneOk url) ∧
        (ph ≠ .start → s.cache.inflight = true))

/-- Inductive invariant of the cache system when the host resolution fails
with raw error `m`: the cache stays empty, the promise is pending or
rejected with the wrapped message, the promise variable is never cleared
once set, the resolver has been started at most once, and every finished
caller observed the (single) wrapped failure. -/
def ErrInv (m : String) (s : SysState) : Prop :=
  s.cache.value = none ∧
    (s.cache.prom = .pending ∨ s.cache.prom = .rejected (wrapFail m)) ∧
    (s.cache.inflight = false → s.cache.hostCalls = 0 ∧ s.cache.prom = .pending) ∧
    (s.cache.inflight = true → s.cache.hostCalls = 1) ∧
    (∀ ph ∈ s.callers,
      (ph = .start ∨ ph = .waiting ∨ ph = .doneErr (wrapFail m)) ∧
        (ph ≠ .start → s.cache.inflight = true))

/-! ### JSON values and the JSON-RPC envelope (src/core/rpc.ts) -/

/-- A model of JSON/JS data values. -/
inductive Json
  | null
  | bool (b : Bool)
  | num (n : Int)
  | str (s : String)
  | arr (elems : List Json)
  | obj (fields : List (String × Json))
deriving Repr

/-- The `JsonRpcRequest` envelope. -/
structure JsonRpcRequest where
  jsonrpc : String
  method : String
  params : Json
  id : Option String
deriving Repr

/-- The `error` member of a `JsonRpcResponse`. -/
structure RpcError where
  code : Int
  message : String
deriving Repr

/-- A parsed `JsonRpcResponse`: `none` models an absent (or `null`, hence
falsy) member. -/
structure JsonRpcResponse where
  result : Option Json
  error : Option RpcError
deriving Repr

/-- The envelope built by `RpcClient.call`: `params` defaults to `{}` when
omitted (`if (params === undefined) params = {}`), and `id` is the client's
`windowId` field (`null` when never fetched). -/
def mkRpcRequest (windowId : Option String) (method : String) (params : Option Json) :
    JsonRpcRequest :=
  { jsonrpc := "2.0"
    method := method
    params := match params with
      | none => Json.obj []
      | some p => p
    id := windowId }

/-- The message of the error thrown on a server-reported RPC error:
`RPC Error: <message> (Code: <code>)`. -/
def rpcErrorText (e : RpcError) : String :=
  "RPC Error: " ++ e.message ++ " (Code: " ++ toString e.code ++ ")"

/-- Response handling in `RpcClient.call`: `if (data.error) throw ...;
return data.result`. -/
def rpcHandleResponse (r : JsonRpcResponse) : Except String (Option Json) :=
  match r.error with
  | some e => .error (rpcErrorText e)
  | none => .ok r.result

/-! ### RpcClient state and lazy endpoint initialization (src/core/rpc.ts) -/

/-- The host bridge as seen by `initializeEndpoint`: the outcomes of
`baseAPI.getServerUrl()` and `baseAPI.getWindowId()`. -/
structure RpcHost where
  serverUrl : Except String String
  windowId : Except String String

/-- The fields of an `RpcClient`. -/
structure RpcClientState where
  endpoint : Option String
  endpointPromise : Option (Except String String)
  windowId : Option String
deriving Repr

/-- The constructor: `if (initialEndpoint)` is a JS truthiness test, so an
empty string is treated like an absent argument. -/
def mkRpcClient (initialEndpoint : Option String) : RpcClientState :=
  if truthyStr initialEndpoint then
    { endpoint := initialEndpoint
      endpointPromise := initialEndpoint.map Except.ok
      windowId := none }
  else
    { endpoint := none, endpointPromise := none, windowId := none }

/-- The `initializeEndpoint` method run to completion (sequential model): fetch the
server URL, cache it, fetch the window id, cache it; any failure is wrapped
as `Failed to get RPC endpoint: <error>` by the catch block. -/
def initializeEndpoint (host : RpcHost) (st : RpcClientState) :
    RpcClientState × Except String String :=
  match host.serverUrl with
  | .error e => (st, .error ("Failed to get RPC endpoint: " ++ e))
  | .ok url =>
      match host.windowId with
      | .error e => ({ st with endpoint := some url },
                     .error ("Failed to get RPC endpoint: " ++ e))
      | .ok wid => ({ st with endpoint := some url, windowId := some wid }, .ok url)

/-- The `ensureEndpointInitialized` method (sequential model).  The returned `Bool`
records whether `initializeEndpoint` was invoked (a host round-trip).  Note
`if (!this.endpoint)` is a truthiness test and the stored promise is awaited
(rethrowing its rejection) before the final `if (!this.endpoint) throw`. -/
def ensureEndpointInitialized (host : RpcHost) (st : RpcClientState) :
    RpcClientState × Bool × Except String Unit :=
  if truthyStr st.endpoint then (st, false, .ok ())
  else
    match st.endpointPromise with
    | some (.error e) => (st, false, .error e)
    | some (.ok _) =>
        if truthyStr st.endpoint then (st, false, .ok ())
        else (st, false, .error "RPC endpoint could not be initialized.")
    | none =>
        let pr := initializeEndpoint host st
        let st2 := { pr.1 with endpointPromise := some pr.2 }
        match pr.2 with
        | .error e => (st2, true, .error e)
        | .ok _ =>
            if truthyStr st2.endpoint then (st2, true, .ok ())
            else (st2, true, .error "RPC endpoint could not be initialized.")

/-- The `RpcClient.call` method (sequential model): ensure the endpoint, build the
envelope from the (possibly defaulted) params and the cached `windowId`,
and handle the given parsed response.  Returns the new client state, the
host round-trip flag, the envelope sent (if any) and the call's outcome. -/
def rpcCall (host : RpcHost) (st : RpcClientState) (method : String)
    (params : Option Json) (resp : JsonRpcResponse) :
    RpcClientState × Bool × Option JsonRpcRequest × Except String (Option Json) :=
  match ensureEndpointInitialized host st with
  | (st', fetched, .error e) => (st', fetched, none, .error e)
  | (st', fetched, .ok _) =>
      (st', fetched, some (mkRpcRequest st'.windowId method params),
       rpcHandleResponse resp)

/-- A sequence of `call`s on one client: returns the final state and, per
call, the host round-trip flag and the envelope sent. -/
def rpcRunCalls (host : RpcHost) (st : RpcClientState)
    (calls : List (String × Option Json × JsonRpcResponse)) :
    RpcClientState × List (Bool × Option JsonRpcRequest) :=
  match calls with
  | [] => (st, [])
  | (m, p, r) :: rest =>
      let out := rpcCall host st m p r
      let next := rpcRunCalls host out.1 rest
      (next.1, (out.2.1, out.2.2.1) :: next.2)

/-! ### JavaScript values and the dynamic dispatcher `IPC.callIPC`
(src/core/ipc.ts)

Host-bridge functions are modelled as named function symbols (`JsVal.fn`);
invoking one yields the symbol's tag together with the argument list, which
is all `callIPC`'s contract observes. -/

/-- A model of the JS values reachable through `window.ipc`. -/
inductive JsVal
  | undefined
  | null
  | str (s : String)
  | fn (tag : String)
  | obj (fields : List (String × JsVal))
deriving Repr

/-- JS truthiness of a value (`undefined`, `null` and `""` are falsy). -/
def truthy : JsVal → Bool
  | .undefined => false
  | .null => false
  | .str s => !(s == "")
  | .fn _ => true
  | .obj _ => true

/-- Property access `v[k]`: a missing key yields `undefined`. -/
def getProp : JsVal → String → JsVal
  | .obj fields, k =>
      match fields.lookup k with
      | some v => v
      | none => .undefined
  | _, _ => .undefined

/-- The guard `current && typeof current === 'object'`: only a (non-null) object
passes — `typeof null` is `'object'` but `null` is falsy. -/
def isTruthyObject : JsVal → Bool
  | .obj _ => true
  | _ => false

/-- Dot-joining, `parts.join('.')`. -/
def joinDot (parts : List String) : String :=
  String.intercalate "." parts

/-- Path splitting, `path.split('.')`, over the character list, faithful to the JS `split`
(empty segments preserved, `"" → [""]`). -/
def splitDotAux (cur : List Char) : List Char → List (List Char)
  | [] => [cur.reverse]
  | c :: rest =>
      if c = '.' then cur.reverse :: splitDotAux [] rest
      else splitDotAux (c :: cur) rest

/-- Path splitting, `path.split('.')`, as a list of strings. -/
def splitDot (path : String) : List String :=
  (splitDotAux [] path.data).map String.mk

/-- The loop `for (let i = 0; i < parts.length - 1; i++)` of `callIPC`:
walk all but the last segment.  `taken` is `parts.slice(0, i)`; when the
current value is not a truthy object, the error names `parts.slice(0, i+1)`
joined with dots, exactly as in the source. -/
def walkParts (path : String) (taken : List String) (cur : JsVal) :
    List String → Except String JsVal
  | [] => .ok cur
  | [_last] => .ok cur
  | p :: q :: rest =>
      match cur with
      | .obj fields =>
          walkParts path (taken ++ [p]) (getProp (.obj fields) p) (q :: rest)
      | _ =>
          .error ("IPC path '" ++ path ++ "' is not accessible. '"
            ++ joinDot (taken ++ [p]) ++ "' is not an object.")

/-- The dispatcher `IPC.callIPC(path, ...args)` (after its `ensureReady` gate): split the
path, walk the intermediate segments, then require a truthy receiver whose
final-segment property is a function (`!current || typeof current[m] !==
'function'`), and invoke it with exactly the supplied arguments. -/
def callIPC (ipcRoot : JsVal) (path : String) (args : List JsVal) :
    Except String (String × List JsVal) :=
  let parts := splitDot path
  match walkParts path [] ipcRoot parts with
  | .error e => .error e
  | .ok cur =>
      let methodName := parts.getLastD ""
      if truthy cur then
        match getProp cur methodName with
        | .fn tag => .ok (tag, args)
        | _ => .error ("IPC method '" ++ path ++ "' is not available or not a function.")
      else .error ("IPC method '" ++ path ++ "' is not available or not a function.")

/-! ### URL building and header injection (fetch module) -/

/-- The replacement `serverUrl.replace(/\/$/, '')`: remove exactly one trailing slash when
one is present. -/
def dropTrailingSlash (s : String) : String :=
  match s.data.getLast? with
  | some '/' => String.mk s.data.dropLast
  | _ => s

/-- The replacement `path.replace(/^\//, '')`: remove exactly one leading slash when one is
present. -/
def dropLeadingSlash (s : String) : String :=
  match s.data with
  | '/' :: rest => String.mk rest
  | _ => s

/-- String method `s.startsWith(p)`. -/
def strStartsWith (s p : String) : Bool :=
  p.data.isPrefixOf s.data

/-- The function `buildUrl(serverUrl, path)`: an already absolute URL is returned as-is;
otherwise one trailing slash is trimmed from the base, one leading slash
from the path, and the two are joined with a single slash. -/
def buildUrl (serverUrl path : String) : String :=
  if strStartsWith path "http://" || strStartsWith path "https://" then path
  else dropTrailingSlash serverUrl ++ "/" ++ dropLeadingSlash path

/-- The injected session header name. -/
def pyloidHeaderName : String := "X-Pyloid-Window-Id"

/-- A JS object literal modelled as its property assignments in evaluation
order; a later assignment to the same key overrides an earlier one. -/
def objGet (assignments : List (String × String)) (k : String) : Option String :=
  assignments.reverse.lookup k

/-- The header merge in the enhanced `fetch`:
`{ ...options.headers, 'X-Pyloid-Window-Id': windowId }` — the spread first,
the injected header assigned after it. -/
def enhancedHeaders (callerHeaders : List (String × String)) (windowId : String) :
    List (String × String) :=
  callerHeaders ++ [(pyloidHeaderName, windowId)]

/-! ## Theorems -/

/-! ### Ready-manager helper lemmas -/

theorem setReady_ready (st : MgrState) : (setReady st).ready = true := by
  unfold setReady
  split
  · next h => exact h
  · rfl

theorem setReady_of_ready (st : MgrState) (h : st.ready = true) : setReady st = st := by
  unfold setReady
  simp [h]

theorem rejectP_eq_resolved (m : String) (p : PromiseState)
    (h : rejectP m p = .resolved) : p = .resolved := by
  cases p <;> simp [rejectP] at h ⊢

theorem resolveP_rejected (m : String) (p : PromiseState)
    (h : p = .rejected m) : resolveP p = .rejected m := by
  subst h; rfl

theorem mgrStep_resolved_ready (st : MgrState) (e : MgrEvent)
    (ih : st.promise = .resolved → st.ready = true) :
    (mgrStep st e).promise = .resolved → (mgrStep st e).ready = true := by
  cases e with
  | pollTick b =>
      simp only [mgrStep]
      split
      · intro _; exact setReady_ready _
      · exact ih
  | timeoutFire =>
      simp only [mgrStep]
      split
      · next h =>
          intro hres
          have hp : st.promise = .resolved := rejectP_eq_resolved _ _ hres
          have := ih hp
          simp [this] at h
      · exact ih
  | setReadyCall =>
      intro _; exact setReady_ready _

theorem runMgr_resolved_ready (es : List MgrEvent) (st : MgrState)
    (ih : st.promise = .resolved → st.ready = true) :
    (runMgr st es).promise = .resolved → (runMgr st es).ready = true := by
  induction es generalizing st with
  | nil => exact ih
  | cons e rest ihr =>
      have : runMgr st (e :: rest) = runMgr (mgrStep st e) rest := rfl
      rw [this]
      exact ihr _ (mgrStep_resolved_ready st e ih)

theorem mgrAt_resolved_ready (es : List MgrEvent) (k : Nat)
    (h : (mgrAt es k).promise = .resolved) : (mgrAt es k).ready = true := by
  refine runMgr_resolved_ready _ _ ?_ h
  intro hcon
  simp [initMgr] at hcon

theorem setReady_rejected (st : MgrState) (m : String)
    (h : st.promise = .rejected m) : (setReady st).promise = .rejected m := by
  simp only [setReady, stopPolling]
  split
  · exact h
  · simpa using resolveP_rejected m _ h

theorem mgrStep_rejected (st : MgrState) (e : MgrEvent) (m : String)
    (h : st.promise = .rejected m) : (mgrStep st e).promise = .rejected m := by
  cases e with
  | pollTick b =>
      simp only [mgrStep]
      split
      · exact setReady_rejected _ m (by simpa [stopPolling] using h)
      · exact h
  | timeoutFire =>
      simp only [mgrStep]
      split
      · simp [stopPolling, h, rejectP]
      · exact h
  | setReadyCall =>
      exact setReady_rejected st m h

theorem runMgr_rejected (es : List MgrEvent) (st : MgrState) (m : String)
    (h : st.promise = .rejected m) : (runMgr st es).promise = .rejected m := by
  induction es generalizing st with
  | nil => exact h
  | cons e rest ihr => exact ihr _ (mgrStep_rejected st e m h)

theorem runMgr_inactive (es : List MgrEvent) (st : MgrState)
    (hr : st.ready = false) (hp : st.pollingActive = false)
    (ht : st.timeoutActive = false) (hs : MgrEvent.setReadyCall ∉ es) :
    (runMgr st es).ready = false ∧ (runMgr st es).pollingActive = false ∧
      (runMgr st es).timeoutActive = false := by
  induction es generalizing st with
  | nil => exact ⟨hr, hp, ht⟩
  | cons e rest ihr =>
      have hne : e ≠ MgrEvent.setReadyCall := by
        intro hcon; exact hs (hcon ▸ List.mem_cons_self e rest)
      have hrest : MgrEvent.setReadyCall ∉ rest := fun hmem => hs (List.mem_cons_of_mem _ hmem)
      have hstep : mgrStep st e = st := by
        cases e with
        | pollTick b => unfold mgrStep; simp [hp]
        | timeoutFire => unfold mgrStep; simp [ht]
        | setReadyCall => exact absurd rfl hne
      have : runMgr st (e :: rest) = runMgr (mgrStep st e) rest := rfl
      rw [this, hstep]
      exact ihr st hr hp ht hrest

/-! ### Claim theorems: readiness gate -/

/-- C1: every operation of the typed bridge surface (`BaseAPI`) and of the
dynamic dispatcher (`IPC.callIPC`) goes through the shared `ensureReady`
gate: if the bridge function is invoked at instant `j` for a call issued at
instant `i`, then the manager is ready at `j`; a call issued when
`isReady()` is already true proceeds immediately (`j = i`) without waiting,
and a call issued when not ready invokes the bridge only after the ready
promise has resolved. -/
theorem ensureReady_gates_bridge_calls (es : List MgrEvent) (i j : Nat)
    (h : ensureReadyInvokeTime es i = some j) :
    (mgrAt es j).ready = true ∧ i ≤ j ∧
      ((mgrAt es i).ready = true → j = i) ∧
      ((mgrAt es i).ready = false → (mgrAt es j).promise = PromiseState.resolved) := by
  unfold ensureReadyInvokeTime at h
  split at h
  · next hready =>
      obtain rfl : i = j := by injection h
      exact ⟨hready, le_refl _, fun _ => rfl, fun hcon => by rw [hready] at hcon; cases hcon⟩
  · next hready =>
      have hfound := List.find?_some h
      have hij : i ≤ j := by
        have := (Bool.and_eq_true _ _).mp hfound
        exact of_decide_eq_true this.1
      have hres : (mgrAt es j).promise = PromiseState.resolved := by
        have := (Bool.and_eq_true _ _).mp hfound
        exact of_decide_eq_true this.2
      refine ⟨mgrAt_resolved_ready es j hres, hij, ?_, fun _ => hres⟩
      intro hcon
      exact absurd hcon hready

/-- C1 witness: with the bridge appearing at the first poll tick, a call
issued at instant 0 (not ready) invokes the bridge at instant 1, where the
manager is ready and the promise has resolved. -/
theorem ensureReady_gates_bridge_calls_witness :
    ensureReadyInvokeTime [MgrEvent.pollTick true] 0 = some 1 ∧
      (mgrAt [MgrEvent.pollTick true] 1).ready = true ∧
      (mgrAt [MgrEvent.pollTick true] 1).promise = PromiseState.resolved := by
  have h : ensureReadyInvokeTime [MgrEvent.pollTick true] 0 = some 1 := by decide
  have hmain := ensureReady_gates_bridge_calls [MgrEvent.pollTick true] 0 1 h
  exact ⟨h, hmain.1, hmain.2.2.2 (by decide)⟩

/-- C2 counterexample: after the timeout has fired, a direct `setReady()`
call still flips the ready flag to `true` (the guard is only
`if (!this.ready)`), even though the completion promise stays rejected —
refuting the claim that no transition of the ready state to true is
possible after the timeout, even if `setReady()` is invoked. -/
theorem timeout_then_setReady_flips_ready_flag :
    (runMgr initMgr [MgrEvent.timeoutFire, MgrEvent.setReadyCall]).ready = true ∧
      (runMgr initMgr [MgrEvent.timeoutFire, MgrEvent.setReadyCall]).promise
        = PromiseState.rejected timeoutMsg := by
  constructor <;> rfl

/-- C2 (amended): once the timeout fires before readiness, the completion
promise is rejected with the timeout error and stays rejected under every
further event sequence — `whenReady()` rejects forever — and the bridge
subsequently appearing is never detected: without a direct `setReady()`
call the ready flag stays false (only an explicit `setReady()` invocation
can still flip the flag, and even then the promise remains rejected). -/
theorem timeout_is_terminal (es : List MgrEvent) :
    (runMgr (mgrStep initMgr MgrEvent.timeoutFire) es).promise
        = PromiseState.rejected timeoutMsg ∧
      (MgrEvent.setReadyCall ∉ es →
        (runMgr (mgrStep initMgr MgrEvent.timeoutFire) es).ready = false) := by
  have hstate : mgrStep initMgr MgrEvent.timeoutFire =
      { ready := false, promise := .rejected timeoutMsg,
        pollingActive := false, timeoutActive := false } := rfl
  constructor
  · exact runMgr_rejected es _ timeoutMsg (by rw [hstate])
  · intro hs
    exact (runMgr_inactive es _ (by rw [hstate]) (by rw [hstate]) (by rw [hstate]) hs).1

/-- C2 amended witness: after the timeout, a poll tick with the bridge now
present neither resolves the promise nor sets the ready flag. -/
theorem timeout_is_terminal_witness :
    (runMgr (mgrStep initMgr MgrEvent.timeoutFire) [MgrEvent.pollTick true]).promise
        = PromiseState.rejected timeoutMsg ∧
      (runMgr (mgrStep initMgr MgrEvent.timeoutFire) [MgrEvent.pollTick true]).ready
        = false := by
  have hmain := timeout_is_terminal [MgrEvent.pollTick true]
  exact ⟨hmain.1, hmain.2 (by decide)⟩

/-- C9: `setReady()` is idempotent — invoking it on an already-ready state
changes nothing, composing it with itself equals one invocation, and any
`n + 1` consecutive invocations have exactly the observable effect (ready
flag, timer cancellation, promise resolution) of a single one. -/
theorem setReady_idempotent :
    (∀ st : MgrState, st.ready = true → setReady st = st) ∧
      (∀ st : MgrState, setReady (setReady st) = setReady st) ∧
      (∀ (st : MgrState) (n : Nat), setReady^[n + 1] st = setReady st) := by
  have h2 : ∀ st : MgrState, setReady (setReady st) = setReady st := fun st =>
    setReady_of_ready _ (setReady_ready st)
  refine ⟨fun st h => setReady_of_ready st h, h2, fun st n => ?_⟩
  induction n with
  | zero => rfl
  | succ k ih =>
      calc setReady^[k + 2] st = setReady (setReady^[k + 1] st) :=
            Function.iterate_succ_apply' setReady (k + 1) st
        _ = setReady (setReady st) := by rw [ih]
        _ = setReady st := h2 st

/-- C9 witness: on the concrete already-ready state reached from `initMgr`,
a second `setReady()` changes nothing, and three invocations from `initMgr`
equal one. -/
theorem setReady_idempotent_witness :
    setReady (setReady initMgr) = setReady initMgr ∧
      setReady^[3] initMgr = setReady initMgr := by
  refine ⟨setReady_idempotent.1 (setReady initMgr) (setReady_ready initMgr), ?_⟩
  exact setReady_idempotent.2.2 initMgr 2

/-! ### Single-flight cache: invariant preservation -/

theorem okInv_init (url : String) (n : Nat) : OkInv url (initSys n) := by
  refine ⟨Or.inl rfl, by simp [initSys, initCache], by simp [initSys, initCache],
    fun _ => ⟨rfl, rfl, rfl⟩, by simp [initSys, initCache], ?_⟩
  intro ph hm
  have := List.eq_of_mem_replicate hm
  subst this
  exact ⟨Or.inl rfl, fun hcon => absurd rfl hcon⟩

theorem okInv_step (url : String) (hurl : url ≠ "") (s : SysState) (e : SysEvent)
    (inv : OkInv url s) : OkInv url (sysStep (Except.ok url) s e) := by
  obtain ⟨hval, hres, hrej, hnofl, hfl, hcal⟩ := inv
  cases e with
  | settle =>
      simp only [sysStep]
      by_cases hg : s.cache.inflight = true ∧ s.cache.prom = PromiseState.pending
      · simp only [settleStep, if_pos hg]
        refine ⟨Or.inr rfl, fun _ => rfl, by simp, ?_, ?_, ?_⟩
        · intro hcon; rw [hg.1] at hcon; cases hcon
        · intro _; exact hfl hg.1
        · intro ph hm
          obtain ⟨hshape, hinfl⟩ := hcal ph hm
          exact ⟨hshape, fun hne => hinfl hne⟩
      · simp only [settleStep, if_neg hg]
        exact ⟨hval, hres, hrej, hnofl, hfl, hcal⟩
  | run i =>
      simp only [sysStep]
      cases hget : s.callers.get? i with
      | none => exact ⟨hval, hres, hrej, hnofl, hfl, hcal⟩
      | some ph =>
          have hmem : ph ∈ s.callers := List.get?_mem hget
          obtain ⟨hshape, hinfl⟩ := hcal ph hmem
          have hmemset : ∀ {c' : CacheState} {ph' : CallerPhase},
              (∀ q ∈ s.callers,
                (q = .start ∨ q = .waiting ∨ q = .doneOk url) ∧
                  (q ≠ .start → c'.inflight = true)) →
              ((ph' = .start ∨ ph' = .waiting ∨ ph' = .doneOk url) ∧
                  (ph' ≠ .start → c'.inflight = true)) →
              ∀ q ∈ s.callers.set i ph',
                (q = .start ∨ q = .waiting ∨ q = .doneOk url) ∧
                  (q ≠ .start → c'.inflight = true) := by
            intro c' ph' hold hnew q hq
            rcases List.mem_or_eq_of_mem_set hq with hmold | rfl
            · exact hold q hmold
            · exact hnew
          rcases hshape with rfl | rfl | rfl
          · -- ph = start
            by_cases htv : truthyStr s.cache.value = true
            · have hvs : s.cache.value = some url := by
                rcases hval with h0 | h0
                · rw [h0] at htv; simp [truthyStr] at htv
                · exact h0
              have hifl : s.cache.inflight = true := by
                by_contra hcon
                have := (hnofl (Bool.eq_false_iff.mpr hcon)).2.2
                rw [hvs] at this; cases this
              simp only [callerStep, if_pos htv]
              refine ⟨hval, hres, hrej, hnofl, hfl, ?_⟩
              refine hmemset (fun q hq => (hcal q hq)) ?_
              refine ⟨Or.inr (Or.inr ?_), fun _ => hifl⟩
              rw [hvs]; rfl
            · by_cases hifl : s.cache.inflight = true
              · simp only [callerStep, if_neg htv, if_pos hifl]
                refine ⟨hval, hres, hrej, hnofl, hfl, ?_⟩
                refine hmemset (fun q hq => (hcal q hq)) ?_
                exact ⟨Or.inr (Or.inl rfl), fun _ => hifl⟩
              · have hifl' : s.cache.inflight = false := Bool.eq_false_iff.mpr hifl
                obtain ⟨hc0, hpend, hvnone⟩ := hnofl hifl'
                simp only [callerStep, if_neg htv, if_neg hifl]
                refine ⟨Or.inl hvnone, ?_, ?_, ?_, ?_, ?_⟩
                · intro hcon; rw [hpend] at hcon; cases hcon
                · intro m; rw [hpend]; simp
                · intro hcon; cases hcon
                · intro _; rw [hc0]
                · refine hmemset ?_ ⟨Or.inr (Or.inl rfl), fun _ => rfl⟩
                  intro q hq
                  exact ⟨(hcal q hq).1, fun _ => rfl⟩
          · -- ph = waiting
            have hifl : s.cache.inflight = true := hinfl (by intro hcon; cases hcon)
            cases hprom : s.cache.prom with
            | pending =>
                simp only [callerStep, hprom]
                refine ⟨hval, hres, hrej, hnofl, hfl, ?_⟩
                refine hmemset (fun q hq => (hcal q hq)) ?_
                exact ⟨Or.inr (Or.inl rfl), fun _ => hifl⟩
            | resolved =>
                have hvs : s.cache.value = some url := hres hprom
                have htv : truthyStr s.cache.value = true := by
                  rw [hvs]; simp [truthyStr, hurl]
                simp only [callerStep, hprom, if_pos htv]
                refine ⟨hval, hres, hrej, hnofl, hfl, ?_⟩
                refine hmemset (fun q hq => (hcal q hq)) ?_
                refine ⟨Or.inr (Or.inr ?_), fun _ => hifl⟩
                rw [hvs]; rfl
            | rejected m => exact absurd hprom (hrej m)
          · -- ph = doneOk url
            have hifl : s.cache.inflight = true := hinfl (by intro hcon; cases hcon)
            simp only [callerStep]
            refine ⟨hval, hres, hrej, hnofl, hfl, ?_⟩
            refine hmemset (fun q hq => (hcal q hq)) ?_
            exact ⟨Or.inr (Or.inr rfl), fun _ => hifl⟩

theorem okInv_run (url : String) (hurl : url ≠ "") (es : List SysEvent) (s : SysState)
    (inv : OkInv url s) : OkInv url (sysRun (Except.ok url) s es) := by
  induction es generalizing s with
  | nil => exact inv
  | cons e rest ihr =>
      have : sysRun (Except.ok url) s (e :: rest)
          = sysRun (Except.ok url) (sysStep (Except.ok url) s e) rest := rfl
      rw [this]
      exact ihr _ (okInv_step url hurl s e inv)

theorem errInv_init (m : String) (n : Nat) : ErrInv m (initSys n) := by
  refine ⟨rfl, Or.inl rfl, fun _ => ⟨rfl, rfl⟩, by simp [initSys, initCache], ?_⟩
  intro ph hm
  have := List.eq_of_mem_replicate hm
  subst this
  exact ⟨Or.inl rfl, fun hcon => absurd rfl hcon⟩

theorem errInv_step (m : String) (s : SysState) (e : SysEvent)
    (inv : ErrInv m s) : ErrInv m (sysStep (Except.error m) s e) := by
  obtain ⟨hval, hprom, hnofl, hfl, hcal⟩ := inv
  cases e with
  | settle =>
      simp only [sysStep]
      by_cases hg : s.cache.inflight = true ∧ s.cache.prom = PromiseState.pending
      · simp only [settleStep, if_pos hg]
        refine ⟨hval, Or.inr rfl, ?_, ?_, ?_⟩
        · intro hcon; rw [hg.1] at hcon; cases hcon
        · intro _; exact hfl hg.1
        · intro ph hm'
          obtain ⟨hshape, hinfl⟩ := hcal ph hm'
          exact ⟨hshape, fun hne => hinfl hne⟩
      · simp only [settleStep, if_neg hg]
        exact ⟨hval, hprom, hnofl, hfl, hcal⟩
  | run i =>
      simp only [sysStep]
      cases hget : s.callers.get? i with
      | none => exact ⟨hval, hprom, hnofl, hfl, hcal⟩
      | some ph =>
          have hmem : ph ∈ s.callers := List.get?_mem hget
          obtain ⟨hshape, hinfl⟩ := hcal ph hmem
          have hmemset : ∀ {c' : CacheState} {ph' : CallerPhase},
              (∀ q ∈ s.callers,
                (q = .start ∨ q = .waiting ∨ q = .doneErr (wrapFail m)) ∧
                  (q ≠ .start → c'.inflight = true)) →
              ((ph' = .start ∨ ph' = .waiting ∨ ph' = .doneErr (wrapFail m)) ∧
                  (ph' ≠ .start → c'.inflight = true)) →
              ∀ q ∈ s.callers.set i ph',
                (q = .start ∨ q = .waiting ∨ q = .doneErr (wrapFail m)) ∧
                  (q ≠ .start → c'.inflight = true) := by
            intro c' ph' hold hnew q hq
            rcases List.mem_or_eq_of_mem_set hq with hmold | rfl
            · exact hold q hmold
            · exact hnew
          have htv : truthyStr s.cache.value = false := by
            rw [hval]; rfl
          rcases hshape with rfl | rfl | rfl
          · -- ph = start
            by_cases hifl : s.cache.inflight = true
            · simp only [callerStep, htv, Bool.false_eq_true, if_false, if_pos hifl]
              refine ⟨hval, hprom, hnofl, hfl, ?_⟩
              refine hmemset (fun q hq => (hcal q hq)) ?_
              exact ⟨Or.inr (Or.inl rfl), fun _ => hifl⟩
            · have hifl' : s.cache.inflight = false := Bool.eq_false_iff.mpr hifl
              obtain ⟨hc0, hpend⟩ := hnofl hifl'
              simp only [callerStep, htv, Bool.false_eq_true, if_false, if_neg hifl]
              refine ⟨hval, Or.inl hpend, ?_, ?_, ?_⟩
              · intro hcon; cases hcon
              · intro _; rw [hc0]
              · refine hmemset ?_ ⟨Or.inr (Or.inl rfl), fun _ => rfl⟩
                intro q hq
                exact ⟨(hcal q hq).1, fun _ => rfl⟩
          · -- ph = waiting
            have hifl : s.cache.inflight = true := hinfl (by intro hcon; cases hcon)
            rcases hprom with hpend | hrejm
            · simp only [callerStep, hpend]
              refine ⟨hval, Or.inl hpend, hnofl, hfl, ?_⟩
              refine hmemset (fun q hq => (hcal q hq)) ?_
              exact ⟨Or.inr (Or.inl rfl), fun _ => hifl⟩
            · simp only [callerStep, hrejm]
              refine ⟨hval, Or.inr hrejm, hnofl, hfl, ?_⟩
              refine hmemset (fun q hq => (hcal q hq)) ?_
              exact ⟨Or.inr (Or.inr rfl), fun _ => hifl⟩
          · -- ph = doneErr
            have hifl : s.cache.inflight = true := hinfl (by intro hcon; cases hcon)
            simp only [callerStep]
            refine ⟨hval, hprom, hnofl, hfl, ?_⟩
            refine hmemset (fun q hq => (hcal q hq)) ?_
            exact ⟨Or.inr (Or.inr rfl), fun _ => hifl⟩

theorem errInv_run (m : String) (es : List SysEvent) (s : SysState)
    (inv : ErrInv m s) : ErrInv m (sysRun (Except.error m) s es) := by
  induction es generalizing s with
  | nil => exact inv
  | cons e rest ihr =>
      have : sysRun (Except.error m) s (e :: rest)
          = sysRun (Except.error m) (sysStep (Except.error m) s e) rest := rfl
      rw [this]
      exact ihr _ (errInv_step m s e inv)

/-! ### Claim theorems: single-flight caches -/

/-- C3: for the lazy endpoint/session caches (the fetch module's
`serverUrl` and `windowId` caches, and the structurally identical
`RpcClient` endpoint cache), under every interleaving of `n` concurrent
callers racing the unresolved cache with a resolution yielding `url`: the
underlying host resolver is started at most once, it has been started
exactly once as soon as any caller has progressed past its first check
(all later callers find the stored in-flight promise and share it), and
every caller that finishes observes the same resolved value `url`. -/
theorem cache_single_flight (url : String) (hurl : url ≠ "") (n : Nat)
    (es : List SysEvent) :
    (sysRun (Except.ok url) (initSys n) es).cache.hostCalls ≤ 1 ∧
      (∀ ph ∈ (sysRun (Except.ok url) (initSys n) es).callers,
        ph ≠ CallerPhase.start →
          (sysRun (Except.ok url) (initSys n) es).cache.hostCalls = 1) ∧
      (∀ ph ∈ (sysRun (Except.ok url) (initSys n) es).callers,
        ph = CallerPhase.start ∨ ph = CallerPhase.waiting ∨
          ph = CallerPhase.doneOk url) := by
  have inv := okInv_run url hurl es (initSys n) (okInv_init url n)
  obtain ⟨_, _, _, hnofl, hfl, hcal⟩ := inv
  refine ⟨?_, ?_, fun ph hm => (hcal ph hm).1⟩
  · cases hifl : (sysRun (Except.ok url) (initSys n) es).cache.inflight with
    | false => rw [(hnofl hifl).1]; exact Nat.zero_le 1
    | true => rw [hfl hifl]
  · intro ph hm hne
    exact hfl ((hcal ph hm).2 hne)

/-- C3 witness: two callers racing the empty cache, resolver answering
`"http://h"`: after both complete, the resolver ran exactly once and both
observed `"http://h"`. -/
theorem cache_single_flight_witness :
    (sysRun (Except.ok "http://h") (initSys 2)
        [SysEvent.run 0, SysEvent.run 1, SysEvent.settle, SysEvent.run 0,
          SysEvent.run 1]).cache.hostCalls ≤ 1 ∧
      ((sysRun (Except.ok "http://h") (initSys 2)
          [SysEvent.run 0, SysEvent.run 1, SysEvent.settle, SysEvent.run 0,
            SysEvent.run 1]).callers
        = [CallerPhase.doneOk "http://h", CallerPhase.doneOk "http://h"]) ∧
      (sysRun (Except.ok "http://h") (initSys 2)
          [SysEvent.run 0, SysEvent.run 1, SysEvent.settle, SysEvent.run 0,
            SysEvent.run 1]).cache.hostCalls = 1 := by
  have hmain := cache_single_flight "http://h" (by decide) 2
    [SysEvent.run 0, SysEvent.run 1, SysEvent.settle, SysEvent.run 0, SysEvent.run 1]
  refine ⟨hmain.1, by decide, ?_⟩
  refine hmain.2.1 (CallerPhase.doneOk "http://h") ?_ (by decide)
  show CallerPhase.doneOk "http://h" ∈
    [CallerPhase.doneOk "http://h", CallerPhase.doneOk "http://h"]
  exact List.mem_cons_self _ _

/-- C4 counterexample: two sequential calls against a cache whose resolution
fails (`"boom"`).  After the first call's resolution has failed, the stored
in-flight promise is NOT cleared (`inflight` is still `true`), the second
call does not start a fresh resolution (`hostCalls` stays `1`), and it
observes the earlier wrapped failure — refuting the claim that the
in-flight marker is cleared so that a subsequent call starts a fresh
resolution attempt. -/
theorem cache_failure_marker_not_cleared :
    (sysRun (Except.error "boom") (initSys 2)
        [SysEvent.run 0, SysEvent.settle, SysEvent.run 0, SysEvent.run 1,
          SysEvent.run 1]).cache.inflight = true ∧
      (sysRun (Except.error "boom") (initSys 2)
          [SysEvent.run 0, SysEvent.settle, SysEvent.run 0, SysEvent.run 1,
            SysEvent.run 1]).cache.hostCalls = 1 ∧
      (sysRun (Except.error "boom") (initSys 2)
          [SysEvent.run 0, SysEvent.settle, SysEvent.run 0, SysEvent.run 1,
            SysEvent.run 1]).callers.get? 1
        = some (CallerPhase.doneErr (wrapFail "boom")) := by
  refine ⟨rfl, rfl, rfl⟩

/-- C4 (amended): when a resolution attempt fails, the cached value is
indeed left empty, but the stored in-flight promise is NOT cleared: under
every schedule the resolver is started at most once, once the promise is
rejected the promise variable is still set (so no later call can start a
fresh attempt), and every caller that finishes after the failure observes
the same original wrapped failure rather than triggering a retry. -/
theorem cache_failure_no_retry (m : String) (n : Nat) (es : List SysEvent) :
    (sysRun (Except.error m) (initSys n) es).cache.value = none ∧
      (sysRun (Except.error m) (initSys n) es).cache.hostCalls ≤ 1 ∧
      ((sysRun (Except.error m) (initSys n) es).cache.prom
          = PromiseState.rejected (wrapFail m) →
        (sysRun (Except.error m) (initSys n) es).cache.inflight = true) ∧
      (∀ ph ∈ (sysRun (Except.error m) (initSys n) es).callers,
        ph = CallerPhase.start ∨ ph = CallerPhase.waiting ∨
          ph = CallerPhase.doneErr (wrapFail m)) := by
  have inv := errInv_run m es (initSys n) (errInv_init m n)
  obtain ⟨hval, hprom, hnofl, hfl, hcal⟩ := inv
  refine ⟨hval, ?_, ?_, fun ph hm => (hcal ph hm).1⟩
  · cases hifl : (sysRun (Except.error m) (initSys n) es).cache.inflight with
    | false => rw [(hnofl hifl).1]; exact Nat.zero_le 1
    | true => rw [hfl hifl]
  · intro hrejm
    by_contra hcon
    have hifl : (sysRun (Except.error m) (initSys n) es).cache.inflight = false :=
      Bool.eq_false_iff.mpr hcon
    have := (hnofl hifl).2
    rw [hrejm] at this
    cases this

/-- C4 amended witness: on the concrete failing schedule, the cache value is
empty, the resolver ran at most once, and the rejected promise is still
stored. -/
theorem cache_failure_no_retry_witness :
    (sysRun (Except.error "boom") (initSys 2)
        [SysEvent.run 0, SysEvent.settle, SysEvent.run 1]).cache.value = none ∧
      (sysRun (Except.error "boom") (initSys 2)
          [SysEvent.run 0, SysEvent.settle, SysEvent.run 1]).cache.inflight = true := by
  have hmain := cache_failure_no_retry "boom" 2
    [SysEvent.run 0, SysEvent.settle, SysEvent.run 1]
  exact ⟨hmain.1, hmain.2.2.1 (by decide)⟩

/-! ### Claim theorems: header injection and URL building -/

/-- C5: the enhanced `fetch` merges the caller's headers first and assigns
`X-Pyloid-Window-Id` after the spread, so the outgoing headers always map
`X-Pyloid-Window-Id` to the SDK's resolved session identifier — a
caller-supplied header of the same name cannot override it — while every
caller header under a different name is preserved. -/
theorem fetch_header_injection (hs : List (String × String)) (wid : String) :
    objGet (enhancedHeaders hs wid) pyloidHeaderName = some wid ∧
      ∀ k, k ≠ pyloidHeaderName → objGet (enhancedHeaders hs wid) k = objGet hs k := by
  constructor
  · simp [objGet, enhancedHeaders, List.lookup]
  · intro k hk
    simp [objGet, enhancedHeaders, List.lookup, beq_eq_false_iff_ne.mpr hk]

/-- C5 witness: a caller supplying its own `X-Pyloid-Window-Id: EVIL` plus
another header still sends the SDK value `W`, and the other header
survives. -/
theorem fetch_header_injection_witness :
    objGet (enhancedHeaders [("X-Pyloid-Window-Id", "EVIL"), ("A", "1")] "W")
        pyloidHeaderName = some "W" ∧
      objGet (enhancedHeaders [("X-Pyloid-Window-Id", "EVIL"), ("A", "1")] "W") "A"
        = some "1" := by
  have hmain := fetch_header_injection [("X-Pyloid-Window-Id", "EVIL"), ("A", "1")] "W"
  refine ⟨hmain.1, ?_⟩
  rw [hmain.2 "A" (by decide)]
  rfl

/-- C6: `buildUrl` returns the path verbatim when it starts with a
recognized absolute scheme (`http://` or `https://`); otherwise it joins
the base and the path with a single slash after removing exactly one
trailing slash from the base (one is removed when present, nothing
otherwise) and exactly one leading slash from the path; in particular
`buildUrl "http://x/" "/a/b" = "http://x/a/b"`. -/
theorem buildUrl_joins_with_single_slash :
    (∀ base path, strStartsWith path "http://" = true → buildUrl base path = path) ∧
      (∀ base path, strStartsWith path "https://" = true → buildUrl base path = path) ∧
      buildUrl "http://x/" "/a/b" = "http://x/a/b" ∧
      (∀ base path, strStartsWith path "http://" = false →
        strStartsWith path "https://" = false →
        buildUrl base path = dropTrailingSlash base ++ "/" ++ dropLeadingSlash path) ∧
      (∀ s : String, dropTrailingSlash (s ++ "/") = s) ∧
      (∀ s : String, s.data.getLast? ≠ some '/' → dropTrailingSlash s = s) ∧
      (∀ s : String, dropLeadingSlash ("/" ++ s) = s) ∧
      (∀ s : String, s.data.head? ≠ some '/' → dropLeadingSlash s = s) := by
  refine ⟨?_, ?_, rfl, ?_, ?_, ?_, ?_, ?_⟩
  · intro base path h
    simp [buildUrl, h]
  · intro base path h
    simp [buildUrl, h]
  · intro base path h1 h2
    simp [buildUrl, h1, h2]
  · intro s
    cases s with
    | mk l =>
        have hcat : (String.mk l ++ "/") = String.mk (l ++ ['/']) := rfl
        rw [hcat]
        simp [dropTrailingSlash, List.getLast?_concat, List.dropLast_concat]
  · intro s h
    simp only [dropTrailingSlash]
  · intro s
    cases s with
    | mk l =>
        have hcat : (("/" : String) ++ String.mk l) = String.mk ('/' :: l) := rfl
        rw [hcat]
        simp [dropLeadingSlash]
  · intro s h
    simp only [dropLeadingSlash]
    split
    · next rest heq =>
        rw [heq] at h
        simp at h
    · rfl

/-- C6 witness: an absolute URL passed as the path is used verbatim
ignoring the base, and removing the trailing slash is exact (one slash,
not all). -/
theorem buildUrl_joins_with_single_slash_witness :
    buildUrl "base" "https://other/y" = "https://other/y" ∧
      dropTrailingSlash ("http://x" ++ "/") = "http://x" ∧
      buildUrl "http://x//" "/a" = "http://x//a" := by
  refine ⟨?_, buildUrl_joins_with_single_slash.2.2.2.2.1 "http://x", rfl⟩
  exact buildUrl_joins_with_single_slash.2.1 "base" "https://other/y" (by decide)

/-! ### Claim theorems: JSON-RPC envelope and response handling -/

/-- C7: `RpcClient.call` defaults omitted params to the empty object, sends
the envelope `{jsonrpc: "2.0", method, params, id: windowId}`, throws an
error exposing both the message and the numeric code exactly when the
parsed response carries an error object, and otherwise resolves with the
response's `result` field; in particular the `-32601` scenario produces
`RPC Error: Method not found (Code: -32601)`. -/
theorem rpc_call_envelope_and_error_handling :
    (∀ (wid : Option String) (m : String),
      mkRpcRequest wid m none
        = { jsonrpc := "2.0", method := m, params := Json.obj [], id := wid }) ∧
      (∀ (wid : Option String) (m : String) (p : Json),
        mkRpcRequest wid m (some p)
          = { jsonrpc := "2.0", method := m, params := p, id := wid }) ∧
      (∀ (r : JsonRpcResponse) (e : RpcError),
        r.error = some e → rpcHandleResponse r = .error (rpcErrorText e)) ∧
      (∀ r : JsonRpcResponse, r.error = none → rpcHandleResponse r = .ok r.result) ∧
      rpcErrorText { code := -32601, message := "Method not found" }
        = "RPC Error: Method not found (Code: -32601)" ∧
      rpcHandleResponse
          { result := none, error := some { code := -32601, message := "Method not found" } }
        = .error "RPC Error: Method not found (Code: -32601)" := by
  refine ⟨fun _ _ => rfl, fun _ _ _ => rfl, ?_, ?_, rfl, rfl⟩
  · intro r e h
    simp [rpcHandleResponse, h]
  · intro r h
    simp [rpcHandleResponse, h]

/-- C7 witness: on the concrete `ping` response carrying error `-32601`,
the call fails with the combined message, and a response with no error
resolves with its result. -/
theorem rpc_call_envelope_and_error_handling_witness :
    rpcHandleResponse
        { result := none, error := some { code := -32601, message := "Method not found" } }
      = .error (rpcErrorText { code := -32601, message := "Method not found" }) ∧
      rpcHandleResponse { result := some (Json.str "pong"), error := none }
        = .ok (some (Json.str "pong")) := by
  refine ⟨rpc_call_envelope_and_error_handling.2.2.1 _ _ rfl, ?_⟩
  exact rpc_call_envelope_and_error_handling.2.2.2.1
    { result := some (Json.str "pong"), error := none } rfl

/-! ### Dynamic dispatcher helper lemmas -/

theorem walkParts_error_shape (path : String) (rest : List String) :
    ∀ (taken : List String) (cur : JsVal) (e : String),
      walkParts path taken cur rest = .error e →
      ∃ mid, e = "IPC path '" ++ path ++ "' is not accessible. '" ++ mid
        ++ "' is not an object." := by
  induction rest with
  | nil =>
      intro taken cur e h
      simp [walkParts] at h
  | cons p rest' ih =>
      intro taken cur e h
      cases rest' with
      | nil => simp [walkParts] at h
      | cons q rest'' =>
          cases cur with
          | obj fields => exact ih (taken ++ [p]) _ e h
          | undefined => exact ⟨joinDot (taken ++ [p]), by injection h with h'; rw [h']⟩
          | null => exact ⟨joinDot (taken ++ [p]), by injection h with h'; rw [h']⟩
          | str s => exact ⟨joinDot (taken ++ [p]), by injection h with h'; rw [h']⟩
          | fn t => exact ⟨joinDot (taken ++ [p]), by injection h with h'; rw [h']⟩

theorem callIPC_ok_args (root : JsVal) (path : String) (args : List JsVal)
    (p : String × List JsVal) (h : callIPC root path args = .ok p) : p.2 = args := by
  simp only [callIPC] at h
  cases hw : walkParts path [] root (splitDot path) with
  | error e => simp only [hw] at h; cases h
  | ok cur =>
      simp only [hw] at h
      by_cases htv : truthy cur = true
      · rw [if_pos htv] at h
        cases hg : getProp cur ((splitDot path).getLastD "") with
        | fn tag => simp only [hg] at h; injection h with h'; rw [← h']
        | undefined => simp only [hg] at h; cases h
        | null => simp only [hg] at h; cases h
        | str s => simp only [hg] at h; cases h
        | obj fields => simp only [hg] at h; cases h
      · rw [if_neg htv] at h; cases h

theorem callIPC_error_named (root : JsVal) (path : String) (args : List JsVal)
    (e : String) (h : callIPC root path args = .error e) :
    (∃ mid, e = "IPC path '" ++ path ++ "' is not accessible. '" ++ mid
        ++ "' is not an object.") ∨
      e = "IPC method '" ++ path ++ "' is not available or not a function." := by
  simp only [callIPC] at h
  cases hw : walkParts path [] root (splitDot path) with
  | error e' =>
      simp only [hw] at h
      injection h with h'
      exact Or.inl (h' ▸ walkParts_error_shape path (splitDot path) [] root e' hw)
  | ok cur =>
      simp only [hw] at h
      by_cases htv : truthy cur = true
      · rw [if_pos htv] at h
        cases hg : getProp cur ((splitDot path).getLastD "") with
        | fn tag => simp only [hg] at h; cases h
        | undefined => simp only [hg] at h; injection h with h'; exact Or.inr h'.symm
        | null => simp only [hg] at h; injection h with h'; exact Or.inr h'.symm
        | str s => simp only [hg] at h; injection h with h'; exact Or.inr h'.symm
        | obj fields => simp only [hg] at h; injection h with h'; exact Or.inr h'.symm
      · rw [if_neg htv] at h; injection h with h'; exact Or.inr h'.symm

/-! ### Claim theorems: dynamic dispatcher -/

/-- C8: `callIPC` walks the dot-path through the bridge namespace: on
success the resolved function is invoked with exactly the supplied
arguments; every failure carries a descriptive error naming the offending
path (either an intermediate-segment "not an object" error or the final
"not available or not a function" error, both embedding the path); in
particular on a bridge with `window.setTitle`, `"window.setTitle"` with
argument `"Hello"` invokes `setTitle` with `"Hello"`, and
`"window.nonexistent"` fails with an error naming `"window.nonexistent"`. -/
theorem callIPC_dispatch :
    (∀ (root : JsVal) (path : String) (args : List JsVal) (p : String × List JsVal),
      callIPC root path args = .ok p → p.2 = args) ∧
      (∀ (root : JsVal) (path : String) (args : List JsVal) (e : String),
        callIPC root path args = .error e →
        (∃ mid, e = "IPC path '" ++ path ++ "' is not accessible. '" ++ mid
            ++ "' is not an object.") ∨
          e = "IPC method '" ++ path ++ "' is not available or not a function.") ∧
      callIPC (JsVal.obj [("window", JsVal.obj [("setTitle", JsVal.fn "setTitle")])])
          "window.setTitle" [JsVal.str "Hello"]
        = .ok ("setTitle", [JsVal.str "Hello"]) ∧
      callIPC (JsVal.obj [("window", JsVal.obj [("setTitle", JsVal.fn "setTitle")])])
          "window.nonexistent" []
        = .error "IPC method 'window.nonexistent' is not available or not a function." := by
  exact ⟨callIPC_ok_args, callIPC_error_named, rfl, rfl⟩

/-- C8 witness: the success and failure characterizations applied to the
concrete scenario calls. -/
theorem callIPC_dispatch_witness :
    (("setTitle", [JsVal.str "Hello"]) : String × List JsVal).2 = [JsVal.str "Hello"] ∧
      ((∃ mid, "IPC method 'window.nonexistent' is not available or not a function."
          = "IPC path '" ++ "window.nonexistent" ++ "' is not accessible. '" ++ mid
            ++ "' is not an object.") ∨
        "IPC method 'window.nonexistent' is not available or not a function."
          = "IPC method '" ++ "window.nonexistent" ++ "' is not available or not a function.") := by
  constructor
  · exact callIPC_dispatch.1
      (JsVal.obj [("window", JsVal.obj [("setTitle", JsVal.fn "setTitle")])])
      "window.setTitle" [JsVal.str "Hello"] ("setTitle", [JsVal.str "Hello"]) rfl
  · exact callIPC_dispatch.2.1
      (JsVal.obj [("window", JsVal.obj [("setTitle", JsVal.fn "setTitle")])])
      "window.nonexistent" []
      "IPC method 'window.nonexistent' is not available or not a function." rfl

/-! ### RpcClient short-circuit helper lemmas -/

theorem rpcCall_cached (host : RpcHost) (st : RpcClientState) (m : String)
    (p : Option Json) (resp : JsonRpcResponse)
    (hend : truthyStr st.endpoint = true) :
    rpcCall host st m p resp
      = (st, false, some (mkRpcRequest st.windowId m p), rpcHandleResponse resp) := by
  have he : ensureEndpointInitialized host st = (st, false, .ok ()) := by
    simp [ensureEndpointInitialized, hend]
  simp [rpcCall, he]

theorem rpcRunCalls_cached (host : RpcHost) (st : RpcClientState)
    (hend : truthyStr st.endpoint = true) (hwid : st.windowId = none) :
    ∀ calls, ∀ x ∈ (rpcRunCalls host st calls).2,
      x.1 = false ∧ ∃ req, x.2 = some req ∧ req.id = none := by
  intro calls
  induction calls with
  | nil => intro x hx; simp [rpcRunCalls] at hx
  | cons c rest ih =>
      obtain ⟨m, p, r⟩ := c
      intro x hx
      rw [rpcRunCalls] at hx
      simp only [rpcCall_cached host st m p r hend] at hx
      rcases List.mem_cons.mp hx with rfl | hx'
      · exact ⟨rfl, mkRpcRequest st.windowId m p, rfl, by simp [mkRpcRequest, hwid]⟩
      · exact ih x hx'

/-! ### Claim theorems: RpcClient constructed with an explicit endpoint -/

/-- C10 counterexample: a client constructed with the explicit (but empty,
hence falsy) initial endpoint `""` does not short-circuit: its first call
invokes `initializeEndpoint` (a host round-trip, flag `true`) and the
envelope carries the fetched window id `"W1"`, not `null` — refuting the
claim for every explicitly supplied initial endpoint. -/
theorem rpc_empty_initial_endpoint_fetches :
    (rpcCall ⟨Except.ok "http://h", Except.ok "W1"⟩ (mkRpcClient (some "")) "ping" none
        { result := some (Json.str "pong"), error := none }).2.1 = true ∧
      (rpcCall ⟨Except.ok "http://h", Except.ok "W1"⟩ (mkRpcClient (some "")) "ping" none
          { result := some (Json.str "pong"), error := none }).2.2.1
        = some { jsonrpc := "2.0", method := "ping", params := Json.obj [],
                 id := some "W1" } := by
  exact ⟨rfl, rfl⟩

/-- C10 (amended): for every client constructed with a nonempty explicit
initial endpoint, no call ever invokes `initializeEndpoint` (no session
identifier is fetched from the host bridge), and every envelope sent
carries `id = null`.  (With an empty string the constructor's truthiness
check skips the short-circuit, see the counterexample.) -/
theorem rpc_explicit_endpoint_short_circuit (e : String) (he : e ≠ "")
    (host : RpcHost) (calls : List (String × Option Json × JsonRpcResponse)) :
    ∀ x ∈ (rpcRunCalls host (mkRpcClient (some e)) calls).2,
      x.1 = false ∧ ∃ req, x.2 = some req ∧ req.id = none := by
  have htv : truthyStr (some e) = true := by
    simp [truthyStr, he]
  have hcl : mkRpcClient (some e)
      = { endpoint := some e, endpointPromise := some (.ok e), windowId := none } := by
    simp [mkRpcClient, htv]
  rw [hcl]
  exact rpcRunCalls_cached host
    { endpoint := some e, endpointPromise := some (.ok e), windowId := none } htv rfl calls

/-- C10 amended witness: one `ping` call on a client constructed with the
nonempty endpoint `"http://e"` performs no host round-trip and sends
`id = null`. -/
theorem rpc_explicit_endpoint_short_circuit_witness :
    ((false : Bool),
        some ({ jsonrpc := "2.0", method := "ping", params := Json.obj [], id := none }
          : JsonRpcRequest)).1 = false ∧
      ∃ req, ((false : Bool),
          some ({ jsonrpc := "2.0", method := "ping", params := Json.obj [], id := none }
            : JsonRpcRequest)).2 = some req ∧ req.id = none := by
  refine rpc_explicit_endpoint_short_circuit "http://e" (by decide)
    ⟨Except.ok "http://h", Except.ok "W1"⟩
    [("ping", none, { result := some (Json.str "pong"), error := none })]
    _ ?_
  show _ ∈ ((false : Bool),
      some ({ jsonrpc := "2.0", method := "ping", params := Json.obj [], id := none }
        : JsonRpcRequest)) :: []
  exact List.mem_cons_self _ _

end Pyloid
